import Mathlib

/-!
Shallow embedding of the real-time connection registry and broadcast engine
of the repository (source: src/services/websocket.ts).

Modelling conventions:
- A JavaScript string-or-undefined value is an Option String (JsStr).
- A JavaScript Map is an insertion-ordered association list; mapSet replaces
  the value in place when the key exists (preserving its position) and appends
  otherwise; mapDelete removes the entry; mapGet reads the first entry.
- Time (Date.now) is a Nat number of milliseconds threaded into each operation.
- Transport effects (ws.send, ws.ping, ws.terminate) are recorded as an Event
  list. The readyState of a registered socket is modelled as OPEN, since the
  registry never tracks transport state apart from removal.
- A thrown-and-caught JavaScript exception is an Except error; every throwing
  point in the source occurs before any state mutation, so the catching
  wrapper resumes from the unchanged state.
-/

namespace ProjectX

/-- JavaScript string-or-undefined value. -/
abbrev JsStr := Option String

/-- JavaScript truthiness of a string-or-undefined value: undefined and the
empty string are falsy. -/
def truthy : JsStr → Bool
  | none => false
  | some s => s ≠ ""

/-- Lookup in an insertion-ordered association list (JavaScript Map.get). -/
def mapGet {κ α : Type} [DecidableEq κ] : List (κ × α) → κ → Option α
  | [], _ => none
  | e :: es, k => if e.1 = k then some e.2 else mapGet es k

/-- Update in an insertion-ordered association list (JavaScript Map.set):
replaces in place, or appends a new entry. -/
def mapSet {κ α : Type} [DecidableEq κ] : List (κ × α) → κ → α → List (κ × α)
  | [], k, v => [(k, v)]
  | e :: es, k, v => if e.1 = k then (k, v) :: es else e :: mapSet es k v

/-- Removal from an association list (JavaScript Map.delete). Keys are unique
in every list this development builds, so removing every entry with the key
coincides with Map.delete. -/
def mapDelete {κ α : Type} [DecidableEq κ] : List (κ × α) → κ → List (κ × α)
  | [], _ => []
  | e :: es, k => if e.1 = k then mapDelete es k else e :: mapDelete es k

/-- ConnectedClient record (source lines 5-12): id, optional identity fields
bound by authentication, and the lastPing liveness timestamp. The ws handle
itself is represented by the id, used as the send target. -/
structure ConnectedClient where
  id : String
  userId : JsStr := none
  role : JsStr := none
  roomNumber : JsStr := none
  lastPing : Nat
deriving Repr, DecidableEq

/-- Payload object of an outbound envelope. Each constructor mirrors one
object shape built in the source; appData stands for an opaque domain payload
supplied by an in-process producer to the public broadcast calls. -/
inductive OutPayload where
  | welcome (clientId : String)
  | sysText (message : String)
  | err (error : String)
  | authSuccess (userId : JsStr) (role : JsStr)
  | userEvent (userId : JsStr) (room : JsStr)
  | appData (data : String)
deriving Repr, DecidableEq

/-- Outbound wire envelope: type, payload, timestamp (WebSocketMessage). -/
structure Envelope where
  type : String
  payload : OutPayload
  timestamp : Nat
deriving Repr, DecidableEq

/-- Observable transport effect of an operation. -/
inductive Event where
  | send (target : String) (env : Envelope)
  | ping (target : String)
  | terminate (target : String)
deriving Repr, DecidableEq

/-- Payload of an inbound control message: the fields the handlers read.
A missing field is none (undefined). -/
structure InPayload where
  userId : JsStr := none
  role : JsStr := none
  roomNumber : JsStr := none
  room : JsStr := none
deriving Repr, DecidableEq

/-- A parsed inbound message: a type tag plus an optional payload object
(none when the message carries no payload field). -/
structure InMessage where
  type : String
  payload : Option InPayload
deriving Repr, DecidableEq

/-- The WebSocketService state: the primary client map and the two reverse
indices (source lines 15-17). Index keys are JsStr because the source can key
them by an undefined userId or room. -/
structure WSState where
  clients : List (String × ConnectedClient)
  userConnections : List (JsStr × List String)
  roomConnections : List (JsStr × List String)
deriving Repr, DecidableEq

/-- The freshly constructed service: all maps empty. -/
def initState : WSState := ⟨[], [], []⟩

/-- sendMessage (source lines 269-274): writes the serialized envelope to the
client transport when the client is registered (and its socket open). -/
def sendMessage (s : WSState) (clientId : String) (env : Envelope) : List Event :=
  match mapGet s.clients clientId with
  | some _ => [.send clientId env]
  | none => []

/-- sendError (source lines 276-282). -/
def sendError (s : WSState) (clientId : String) (error : String) (now : Nat) : List Event :=
  sendMessage s clientId ⟨"system_message", .err error, now⟩

/-- broadcastToRoom (source lines 291-298). The room key is JsStr because the
internal callers can pass an undefined room. -/
def broadcastToRoom (s : WSState) (room : JsStr) (env : Envelope)
    (excludeClientId : Option String) : List Event :=
  ((mapGet s.roomConnections room).getD []).flatMap fun clientId =>
    if some clientId = excludeClientId then [] else sendMessage s clientId env

/-- broadcastToUser (source lines 284-289). -/
def broadcastToUser (s : WSState) (userId : String) (env : Envelope) : List Event :=
  ((mapGet s.userConnections (some userId)).getD []).flatMap fun clientId =>
    sendMessage s clientId env

/-- broadcastToRole (source lines 300-306): linear scan over all clients. -/
def broadcastToRole (s : WSState) (role : String) (env : Envelope) : List Event :=
  s.clients.flatMap fun e =>
    if e.2.role = some role then sendMessage s e.1 env else []

/-- broadcastToAll (source lines 308-312). -/
def broadcastToAll (s : WSState) (env : Envelope) : List Event :=
  (s.clients.map Prod.fst).flatMap fun clientId => sendMessage s clientId env

/-- Connection acceptance (source lines 37-89): a fresh client record is
stored and the welcome system message is sent. -/
def register (s : WSState) (clientId : String) (now : Nat) : WSState × List Event :=
  let s1 : WSState := { s with clients := mapSet s.clients clientId ⟨clientId, none, none, none, now⟩ }
  (s1, sendMessage s1 clientId ⟨"system_message", .welcome clientId, now⟩)

/-- joinRoom (source lines 163-184): unknown client is a no-op; the id is
appended to the room entry only when absent; the user_joined event is then
broadcast to the room excluding the joiner — unconditionally, even when the
client was already a member. -/
def joinRoom (s : WSState) (clientId : String) (room : JsStr) (now : Nat) :
    WSState × List Event :=
  match mapGet s.clients clientId with
  | none => (s, [])
  | some client =>
    let roomConns := (mapGet s.roomConnections room).getD []
    let s1 := if clientId ∈ roomConns then s
      else { s with roomConnections := mapSet s.roomConnections room (roomConns ++ [clientId]) }
    (s1, broadcastToRoom s1 room ⟨"user_joined", .userEvent client.userId room, now⟩ (some clientId))

/-- leaveRoom (source lines 186-207): no unknown-client guard; the id is
spliced out of the room entry when present (the key is kept even if the list
becomes empty); the user_left event is then broadcast to the room with no
exclusion — unconditionally, even when the client was not a member. -/
def leaveRoom (s : WSState) (clientId : String) (room : JsStr) (now : Nat) :
    WSState × List Event :=
  let client := mapGet s.clients clientId
  let roomConns := (mapGet s.roomConnections room).getD []
  let s1 := if clientId ∈ roomConns then
      { s with roomConnections := mapSet s.roomConnections room (roomConns.erase clientId) }
    else s
  (s1, broadcastToRoom s1 room ⟨"user_left", .userEvent (client.bind (·.userId)) room, now⟩ none)

/-- authenticateClient (source lines 132-161): unknown client is a no-op;
reading a field of an undefined payload throws (before any mutation);
otherwise the identity fields are overwritten, the id is appended to the
byUser entry of the new userId (no removal of a previous mapping and no
duplicate check), the room is joined when roomNumber is truthy, and the
success acknowledgment is sent last. -/
def authenticateClient (s : WSState) (clientId : String) (payload : Option InPayload)
    (now : Nat) : Except Unit (WSState × List Event) :=
  match mapGet s.clients clientId with
  | none => .ok (s, [])
  | some client =>
    match payload with
    | none => .error ()
    | some p =>
      let client1 := { client with userId := p.userId, role := p.role, roomNumber := p.roomNumber }
      let s1 := { s with clients := mapSet s.clients clientId client1 }
      let userConns := (mapGet s1.userConnections p.userId).getD []
      let s2 := { s1 with userConnections := mapSet s1.userConnections p.userId (userConns ++ [clientId]) }
      let r := if truthy p.roomNumber then joinRoom s2 clientId p.roomNumber now else (s2, [])
      .ok (r.1, r.2 ++ sendMessage r.1 clientId ⟨"system_message", .authSuccess p.userId p.role, now⟩)

/-- handleMessage (source lines 102-130): unknown client returns silently;
recognized types dispatch; join_room and leave_room read payload.room before
dispatch, which throws when the payload object is undefined; any other type
is only logged — no reply is sent. -/
def handleMessage (s : WSState) (clientId : String) (message : InMessage) (now : Nat) :
    Except Unit (WSState × List Event) :=
  match mapGet s.clients clientId with
  | none => .ok (s, [])
  | some _ =>
    if message.type = "authenticate" then
      authenticateClient s clientId message.payload now
    else if message.type = "join_room" then
      match message.payload with
      | none => .error ()
      | some p => .ok (joinRoom s clientId p.room now)
    else if message.type = "leave_room" then
      match message.payload with
      | none => .error ()
      | some p => .ok (leaveRoom s clientId p.room now)
    else if message.type = "ping" then
      .ok (s, sendMessage s clientId ⟨"system_message", .sysText "pong", now⟩)
    else
      .ok (s, [])

/-- The ws message callback (source lines 51-59): unparseable data (none) or
an exception escaping handleMessage yields the Invalid-message-format error
reply; every throwing point precedes mutation, so the state is unchanged. -/
def onRawMessage (s : WSState) (clientId : String) (data : Option InMessage) (now : Nat) :
    WSState × List Event :=
  match data with
  | none => (s, sendError s clientId "Invalid message format" now)
  | some message =>
    match handleMessage s clientId message now with
    | .ok r => r
    | .error _ => (s, sendError s clientId "Invalid message format" now)

/-- The byUser cleanup inside removeClient (source lines 214-225): guarded by
the truthiness of the stored userId; one occurrence of the id is spliced out
of the entry under the current userId, and the key is deleted when the entry
becomes empty. -/
def removeUserIndex (s : WSState) (clientId : String) (uid : JsStr) : WSState :=
  if truthy uid then
    let userConns := (mapGet s.userConnections uid).getD []
    if clientId ∈ userConns then
      let userConns1 := userConns.erase clientId
      if userConns1 = [] then { s with userConnections := mapDelete s.userConnections uid }
      else { s with userConnections := mapSet s.userConnections uid userConns1 }
    else s
  else s

/-- One iteration of the room loop inside removeClient (source lines
228-244): when the room entry contains the id, splice it out (keeping the
key) and broadcast user_left to the remaining members. -/
def removeClientRoomStep (clientId : String) (uid : JsStr) (now : Nat)
    (acc : WSState × List Event) (room : JsStr) : WSState × List Event :=
  let conns := (mapGet acc.1.roomConnections room).getD []
  if clientId ∈ conns then
    let s1 := { acc.1 with roomConnections := mapSet acc.1.roomConnections room (conns.erase clientId) }
    (s1, acc.2 ++ broadcastToRoom s1 room ⟨"user_left", .userEvent uid room, now⟩ none)
  else acc

/-- removeClient (source lines 209-247): unknown client is a no-op; the
byUser entry under the currently bound userId is cleaned, every room entry is
visited with a user_left broadcast for each membership, and the client is
deleted from the primary map last. -/
def removeClient (s : WSState) (clientId : String) (now : Nat) : WSState × List Event :=
  match mapGet s.clients clientId with
  | none => (s, [])
  | some client =>
    let s1 := removeUserIndex s clientId client.userId
    let r := (s1.roomConnections.map Prod.fst).foldl
      (removeClientRoomStep clientId client.userId now) (s1, [])
    ({ r.1 with clients := mapDelete r.1.clients clientId }, r.2)

/-- The pong callback (source lines 74-79): refreshes lastPing. -/
def onPong (s : WSState) (clientId : String) (now : Nat) : WSState :=
  match mapGet s.clients clientId with
  | none => s
  | some client => { s with clients := mapSet s.clients clientId { client with lastPing := now } }

/-- The heartbeat interval length in milliseconds (source line 264). -/
def heartbeatIntervalMs : Nat := 10000

/-- The liveness timeout window in milliseconds (source line 255). -/
def heartbeatTimeoutMs : Nat := 30000

/-- One iteration of the heartbeat loop (source lines 253-263): a client
silent beyond the timeout window is terminated and removed, any other
client is pinged. The condition reads the entry value captured when the
iteration reaches it, which no earlier iteration can have altered. -/
def heartbeatStep (now : Nat) (acc : WSState × List Event)
    (entry : String × ConnectedClient) : WSState × List Event :=
  if now - entry.2.lastPing > heartbeatTimeoutMs then
    let r := removeClient acc.1 entry.1 now
    (r.1, acc.2 ++ [.terminate entry.1] ++ r.2)
  else
    (acc.1, acc.2 ++ [.ping entry.1])

/-- The body of one heartbeat tick (source lines 250-264). -/
def heartbeatTick (s : WSState) (now : Nat) : WSState × List Event :=
  s.clients.foldl (heartbeatStep now) (s, [])

/-- States reachable from the fresh service by transport events: connection
acceptance (with a fresh uuid), inbound data, pong, close or error (both run
removeClient, source lines 62-71), and heartbeat ticks. -/
inductive Reachable : WSState → Prop where
  | init : Reachable initState
  | register {s : WSState} {c : String} {now : Nat} : Reachable s →
      mapGet s.clients c = none → Reachable (register s c now).1
  | message {s : WSState} {c : String} {data : Option InMessage} {now : Nat} :
      Reachable s → Reachable (onRawMessage s c data now).1
  | pong {s : WSState} {c : String} {now : Nat} : Reachable s → Reachable (onPong s c now)
  | close {s : WSState} {c : String} {now : Nat} : Reachable s →
      Reachable (removeClient s c now).1
  | tick {s : WSState} {now : Nat} : Reachable s → Reachable (heartbeatTick s now).1

/-- The send targets of an event trace. -/
def sendTargets (evs : List Event) : List String :=
  evs.filterMap fun e => match e with | .send t _ => some t | _ => none

/-! Association-list map lemmas. -/

theorem mapGet_mapSet_self {κ α : Type} [DecidableEq κ] (m : List (κ × α)) (k : κ) (v : α) :
    mapGet (mapSet m k v) k = some v := by
  induction m with
  | nil => simp [mapGet, mapSet]
  | cons e es ih =>
    by_cases h : e.1 = k
    · simp [mapSet, h, mapGet]
    · simp [mapSet, h, mapGet, ih]

theorem mapGet_mapSet_ne {κ α : Type} [DecidableEq κ] (m : List (κ × α)) (k k' : κ) (v : α)
    (h : k' ≠ k) : mapGet (mapSet m k v) k' = mapGet m k' := by
  have hkk : ¬ (k = k') := fun hh => h hh.symm
  induction m with
  | nil => simp [mapGet, mapSet, hkk]
  | cons e es ih =>
    obtain ⟨a, b⟩ := e
    by_cases he : a = k
    · subst he
      simp [mapGet, mapSet, hkk]
    · by_cases he' : a = k'
      · subst he'
        simp [mapGet, mapSet, he]
      · simp [mapGet, mapSet, he, he', ih]

theorem mapGet_mapDelete_self {κ α : Type} [DecidableEq κ] (m : List (κ × α)) (k : κ) :
    mapGet (mapDelete m k) k = none := by
  induction m with
  | nil => simp [mapGet, mapDelete]
  | cons e es ih =>
    by_cases h : e.1 = k
    · simp [mapDelete, h, ih]
    · simp [mapDelete, h, mapGet, ih]

theorem mapGet_mapDelete_ne {κ α : Type} [DecidableEq κ] (m : List (κ × α)) (k k' : κ)
    (h : k' ≠ k) : mapGet (mapDelete m k) k' = mapGet m k' := by
  induction m with
  | nil => simp [mapDelete]
  | cons e es ih =>
    obtain ⟨a, b⟩ := e
    by_cases he : a = k
    · subst he
      have : ¬ (a = k') := fun hh => h (hh ▸ rfl)
      simp [mapDelete, mapGet, this, ih]
    · simp [mapDelete, he, mapGet, ih]

theorem mem_mapSet {κ α : Type} [DecidableEq κ] {m : List (κ × α)} {k : κ} {v : α}
    {e : κ × α} (h : e ∈ mapSet m k v) : e = (k, v) ∨ e ∈ m := by
  induction m with
  | nil => simpa [mapSet] using h
  | cons e0 es ih =>
    by_cases h0 : e0.1 = k
    · simp only [mapSet, if_pos h0, List.mem_cons] at h
      rcases h with h | h
      · exact Or.inl h
      · exact Or.inr (List.mem_cons_of_mem _ h)
    · simp only [mapSet, if_neg h0, List.mem_cons] at h
      rcases h with h | h
      · exact Or.inr (h ▸ List.mem_cons_self _ _)
      · rcases ih h with h | h
        · exact Or.inl h
        · exact Or.inr (List.mem_cons_of_mem _ h)

theorem mem_mapDelete {κ α : Type} [DecidableEq κ] {m : List (κ × α)} {k : κ}
    {e : κ × α} (h : e ∈ mapDelete m k) : e ∈ m := by
  induction m with
  | nil => simpa [mapDelete] using h
  | cons e0 es ih =>
    by_cases h0 : e0.1 = k
    · simp only [mapDelete, if_pos h0] at h
      exact List.mem_cons_of_mem _ (ih h)
    · simp only [mapDelete, if_neg h0, List.mem_cons] at h
      rcases h with h | h
      · exact h ▸ List.mem_cons_self _ _
      · exact List.mem_cons_of_mem _ (ih h)

theorem mapGet_mem {κ α : Type} [DecidableEq κ] {m : List (κ × α)} {k : κ} {v : α}
    (h : mapGet m k = some v) : (k, v) ∈ m := by
  induction m with
  | nil => simp [mapGet] at h
  | cons e es ih =>
    by_cases h0 : e.1 = k
    · simp only [mapGet, if_pos h0, Option.some.injEq] at h
      have : e = (k, v) := Prod.ext h0 h
      exact this ▸ List.mem_cons_self _ _
    · simp only [mapGet, if_neg h0] at h
      exact List.mem_cons_of_mem _ (ih h)

theorem mem_keys_mapSet {κ α : Type} [DecidableEq κ] {m : List (κ × α)} {k k' : κ} {v : α}
    (h : k' ∈ (mapSet m k v).map Prod.fst) : k' = k ∨ k' ∈ m.map Prod.fst := by
  rcases List.mem_map.mp h with ⟨e, he, hfst⟩
  rcases mem_mapSet he with h1 | h1
  · exact Or.inl (hfst ▸ h1 ▸ rfl)
  · exact Or.inr (hfst ▸ List.mem_map_of_mem Prod.fst h1)

theorem keys_nodup_mapSet {κ α : Type} [DecidableEq κ] {m : List (κ × α)} (k : κ) (v : α)
    (h : (m.map Prod.fst).Nodup) : ((mapSet m k v).map Prod.fst).Nodup := by
  induction m with
  | nil => simp [mapSet]
  | cons e es ih =>
    obtain ⟨a, b⟩ := e
    rw [List.map_cons, List.nodup_cons] at h
    by_cases h0 : a = k
    · subst h0
      have hstep : mapSet ((a, b) :: es) a v = (a, v) :: es := by simp [mapSet]
      rw [hstep, List.map_cons, List.nodup_cons]
      exact ⟨h.1, h.2⟩
    · have hstep : mapSet ((a, b) :: es) k v = (a, b) :: mapSet es k v := by simp [mapSet, h0]
      rw [hstep, List.map_cons, List.nodup_cons]
      refine ⟨fun hmem => ?_, ih h.2⟩
      rcases mem_keys_mapSet hmem with h2 | h2
      · exact h0 h2
      · exact h.1 h2

theorem keys_mapDelete_sublist {κ α : Type} [DecidableEq κ] (m : List (κ × α)) (k : κ) :
    List.Sublist ((mapDelete m k).map Prod.fst) (m.map Prod.fst) := by
  induction m with
  | nil => simp [mapDelete]
  | cons e es ih =>
    by_cases h0 : e.1 = k
    · have hstep : mapDelete (e :: es) k = mapDelete es k := by simp [mapDelete, h0]
      rw [hstep, List.map_cons]
      exact ih.trans (List.sublist_cons_self _ _)
    · have hstep : mapDelete (e :: es) k = e :: mapDelete es k := by simp [mapDelete, h0]
      rw [hstep, List.map_cons, List.map_cons]
      exact List.Sublist.cons₂ _ ih

theorem keys_nodup_mapDelete {κ α : Type} [DecidableEq κ] {m : List (κ × α)} (k : κ)
    (h : (m.map Prod.fst).Nodup) : ((mapDelete m k).map Prod.fst).Nodup :=
  h.sublist (keys_mapDelete_sublist m k)

/-! Event-trace lemmas. -/

theorem sendTargets_append (a b : List Event) :
    sendTargets (a ++ b) = sendTargets a ++ sendTargets b := by
  simp [sendTargets]

theorem sendTargets_sendMessage (s : WSState) (c : String) (env : Envelope) :
    sendTargets (sendMessage s c env)
      = if (mapGet s.clients c).isSome then [c] else [] := by
  unfold sendMessage
  cases mapGet s.clients c <;> simp [sendTargets]

theorem sendTargets_sendMessage_sublist (s : WSState) (c : String) (env : Envelope) :
    List.Sublist (sendTargets (sendMessage s c env)) [c] := by
  rw [sendTargets_sendMessage]
  by_cases h : (mapGet s.clients c).isSome <;> simp [h]

theorem sendTargets_flatMap_sublist {α : Type} (l : List α) (g : α → String)
    (f : α → List Event) (hf : ∀ a, List.Sublist (sendTargets (f a)) [g a]) :
    List.Sublist (sendTargets (l.flatMap f)) (l.map g) := by
  induction l with
  | nil => simp [sendTargets]
  | cons a as ih =>
    rw [List.flatMap_cons, sendTargets_append, List.map_cons]
    exact List.Sublist.append (hf a) ih

theorem sendTargets_flatMap_sendMessage (s : WSState) (env : Envelope) (l : List String) :
    sendTargets (l.flatMap fun cid => sendMessage s cid env)
      = l.filter fun cid => (mapGet s.clients cid).isSome := by
  induction l with
  | nil => simp [sendTargets]
  | cons a as ih =>
    rw [List.flatMap_cons, sendTargets_append, ih, List.filter_cons]
    by_cases h : (mapGet s.clients a).isSome
    · simp [sendTargets_sendMessage, h]
    · simp [sendTargets_sendMessage, h]

/-! The structural well-formedness invariant of the service state. -/

/-- Well-formedness maintained by every operation: client keys are unique,
room entries are duplicate-free, and the byUser index holds no empty entry. -/
def WF (s : WSState) : Prop :=
  (s.clients.map Prod.fst).Nodup ∧
  (∀ e ∈ s.roomConnections, (e.2 : List String).Nodup) ∧
  (∀ e ∈ s.userConnections, e.2 ≠ [])

instance (s : WSState) : Decidable (WF s) := by
  unfold WF
  infer_instance

theorem wf_initState : WF initState := by
  refine ⟨?_, ?_, ?_⟩ <;> simp [initState]

theorem wf_register (s : WSState) (c : String) (now : Nat) (h : WF s) :
    WF (register s c now).1 := by
  obtain ⟨h1, h2, h3⟩ := h
  exact ⟨keys_nodup_mapSet c _ h1, h2, h3⟩

theorem roomConns_nodup (s : WSState) (room : JsStr)
    (h2 : ∀ e ∈ s.roomConnections, (e.2 : List String).Nodup) :
    ((mapGet s.roomConnections room).getD []).Nodup := by
  cases hr : mapGet s.roomConnections room with
  | none => simp
  | some v => simpa using h2 (room, v) (mapGet_mem hr)

theorem wf_joinRoom (s : WSState) (c : String) (room : JsStr) (now : Nat) (h : WF s) :
    WF (joinRoom s c room now).1 := by
  obtain ⟨h1, h2, h3⟩ := h
  unfold joinRoom
  cases hc : mapGet s.clients c with
  | none => exact ⟨h1, h2, h3⟩
  | some client =>
    by_cases hmem : c ∈ (mapGet s.roomConnections room).getD []
    · simpa [hmem] using ⟨h1, h2, h3⟩
    · simp only [hmem, if_false]
      refine ⟨h1, fun e he => ?_, h3⟩
      rcases mem_mapSet he with h4 | h4
      · subst h4
        exact List.Nodup.append (roomConns_nodup s room h2) (List.nodup_singleton c)
          (by simpa using hmem)
      · exact h2 e h4

theorem wf_leaveRoom (s : WSState) (c : String) (room : JsStr) (now : Nat) (h : WF s) :
    WF (leaveRoom s c room now).1 := by
  obtain ⟨h1, h2, h3⟩ := h
  unfold leaveRoom
  by_cases hmem : c ∈ (mapGet s.roomConnections room).getD []
  · simp only [hmem, if_true]
    refine ⟨h1, fun e he => ?_, h3⟩
    rcases mem_mapSet he with h4 | h4
    · subst h4
      exact (roomConns_nodup s room h2).erase c
    · exact h2 e h4
  · simpa [hmem] using ⟨h1, h2, h3⟩

theorem wf_removeUserIndex (s : WSState) (c : String) (uid : JsStr) (h : WF s) :
    WF (removeUserIndex s c uid) := by
  obtain ⟨h1, h2, h3⟩ := h
  unfold removeUserIndex
  by_cases ht : truthy uid
  · simp only [ht, if_true]
    by_cases hmem : c ∈ (mapGet s.userConnections uid).getD []
    · simp only [hmem, if_true]
      by_cases hemp : ((mapGet s.userConnections uid).getD []).erase c = []
      · simp only [hemp, if_true]
        exact ⟨h1, h2, fun e he => h3 e (mem_mapDelete he)⟩
      · simp only [hemp, if_false]
        refine ⟨h1, h2, fun e he => ?_⟩
        rcases mem_mapSet he with h4 | h4
        · subst h4
          exact hemp
        · exact h3 e h4
    · simpa [hmem] using ⟨h1, h2, h3⟩
  · simpa [ht] using ⟨h1, h2, h3⟩

theorem wf_authenticateClient (s : WSState) (c : String) (p : Option InPayload) (now : Nat)
    (h : WF s) (r : WSState × List Event)
    (hr : authenticateClient s c p now = .ok r) : WF r.1 := by
  unfold authenticateClient at hr
  cases hc : mapGet s.clients c with
  | none =>
    rw [hc] at hr
    injection hr with hr1
    exact hr1 ▸ h
  | some client =>
    rw [hc] at hr
    cases p with
    | none => simp at hr
    | some p0 =>
      simp only [Except.ok.injEq] at hr
      subst hr
      have hwf2 : WF { s with
          clients := mapSet s.clients c { client with
            userId := p0.userId, role := p0.role, roomNumber := p0.roomNumber },
          userConnections := mapSet s.userConnections p0.userId
            (((mapGet s.userConnections p0.userId).getD []) ++ [c]) } := by
        refine ⟨keys_nodup_mapSet _ _ h.1, h.2.1, fun e he => ?_⟩
        rcases mem_mapSet he with h4 | h4
        · subst h4
          simp
        · exact h.2.2 e h4
      by_cases hroom : truthy p0.roomNumber
      · simpa [hroom] using wf_joinRoom _ c p0.roomNumber now hwf2
      · simpa [hroom] using hwf2

theorem wf_handleMessage (s : WSState) (c : String) (m : InMessage) (now : Nat)
    (h : WF s) (r : WSState × List Event)
    (hr : handleMessage s c m now = .ok r) : WF r.1 := by
  obtain ⟨mt, mp⟩ := m
  unfold handleMessage at hr
  simp only at hr
  cases hc : mapGet s.clients c with
  | none =>
    rw [hc] at hr
    injection hr with hr1
    exact hr1 ▸ h
  | some client =>
    rw [hc] at hr
    by_cases h1 : mt = "authenticate"
    · rw [if_pos h1] at hr
      exact wf_authenticateClient s c mp now h r hr
    · rw [if_neg h1] at hr
      by_cases h2 : mt = "join_room"
      · rw [if_pos h2] at hr
        cases mp with
        | none => simp at hr
        | some p =>
          simp only [Except.ok.injEq] at hr
          exact hr ▸ wf_joinRoom s c p.room now h
      · rw [if_neg h2] at hr
        by_cases h3 : mt = "leave_room"
        · rw [if_pos h3] at hr
          cases mp with
          | none => simp at hr
          | some p =>
            simp only [Except.ok.injEq] at hr
            exact hr ▸ wf_leaveRoom s c p.room now h
        · rw [if_neg h3] at hr
          by_cases h4 : mt = "ping"
          · rw [if_pos h4] at hr
            injection hr with hr1
            exact hr1 ▸ h
          · rw [if_neg h4] at hr
            injection hr with hr1
            exact hr1 ▸ h

theorem wf_onRawMessage (s : WSState) (c : String) (data : Option InMessage) (now : Nat)
    (h : WF s) : WF (onRawMessage s c data now).1 := by
  cases data with
  | none => simpa [onRawMessage] using h
  | some m =>
    have hred : onRawMessage s c (some m) now
        = match handleMessage s c m now with
          | .ok r => r
          | .error _ => (s, sendError s c "Invalid message format" now) := rfl
    rw [hred]
    cases hr : handleMessage s c m now with
    | ok r => exact wf_handleMessage s c m now h r hr
    | error e => exact h

theorem wf_removeClientRoomStep (c : String) (uid : JsStr) (now : Nat)
    (acc : WSState × List Event) (room : JsStr) (h : WF acc.1) :
    WF (removeClientRoomStep c uid now acc room).1 := by
  obtain ⟨h1, h2, h3⟩ := h
  unfold removeClientRoomStep
  by_cases hmem : c ∈ (mapGet acc.1.roomConnections room).getD []
  · simp only [hmem, if_true]
    refine ⟨h1, fun e he => ?_, h3⟩
    rcases mem_mapSet he with h4 | h4
    · subst h4
      exact (roomConns_nodup acc.1 room h2).erase c
    · exact h2 e h4
  · simpa [hmem] using ⟨h1, h2, h3⟩

theorem wf_foldl_removeClientRoomStep (c : String) (uid : JsStr) (now : Nat)
    (keys : List JsStr) (acc : WSState × List Event) (h : WF acc.1) :
    WF (keys.foldl (removeClientRoomStep c uid now) acc).1 := by
  induction keys generalizing acc with
  | nil => exact h
  | cons k ks ih => exact ih _ (wf_removeClientRoomStep c uid now acc k h)

theorem wf_removeClient (s : WSState) (c : String) (now : Nat) (h : WF s) :
    WF (removeClient s c now).1 := by
  unfold removeClient
  cases hc : mapGet s.clients c with
  | none => exact h
  | some client =>
    have hwf1 := wf_removeUserIndex s c client.userId h
    have hwf2 := wf_foldl_removeClientRoomStep c client.userId now
      ((removeUserIndex s c client.userId).roomConnections.map Prod.fst)
      (removeUserIndex s c client.userId, []) hwf1
    exact ⟨keys_nodup_mapDelete c hwf2.1, hwf2.2.1, hwf2.2.2⟩

theorem wf_onPong (s : WSState) (c : String) (now : Nat) (h : WF s) :
    WF (onPong s c now) := by
  unfold onPong
  cases hc : mapGet s.clients c with
  | none => exact h
  | some client => exact ⟨keys_nodup_mapSet _ _ h.1, h.2.1, h.2.2⟩

theorem wf_heartbeatStep (now : Nat) (acc : WSState × List Event)
    (entry : String × ConnectedClient) (h : WF acc.1) :
    WF (heartbeatStep now acc entry).1 := by
  unfold heartbeatStep
  by_cases hcond : now - entry.2.lastPing > heartbeatTimeoutMs
  · simp only [hcond, if_true]
    exact wf_removeClient _ _ _ h
  · simpa [hcond] using h

theorem wf_foldl_heartbeatStep (now : Nat) (l : List (String × ConnectedClient))
    (acc : WSState × List Event) (h : WF acc.1) :
    WF (l.foldl (heartbeatStep now) acc).1 := by
  induction l generalizing acc with
  | nil => exact h
  | cons e es ih => exact ih _ (wf_heartbeatStep now acc e h)

theorem wf_heartbeatTick (s : WSState) (now : Nat) (h : WF s) :
    WF (heartbeatTick s now).1 :=
  wf_foldl_heartbeatStep now s.clients (s, []) h

theorem reachable_wf {s : WSState} (h : Reachable s) : WF s := by
  induction h with
  | init => exact wf_initState
  | register _ hfresh ih => exact wf_register _ _ _ ih
  | message _ ih => exact wf_onRawMessage _ _ _ _ ih
  | pong _ ih => exact wf_onPong _ _ _ ih
  | close _ ih => exact wf_removeClient _ _ _ ih
  | tick _ ih => exact wf_heartbeatTick _ _ ih

/-! Frame lemmas for single operations. -/

theorem joinRoom_clients (s : WSState) (c : String) (room : JsStr) (now : Nat) :
    (joinRoom s c room now).1.clients = s.clients := by
  unfold joinRoom
  cases mapGet s.clients c with
  | none => rfl
  | some client =>
    by_cases hmem : c ∈ (mapGet s.roomConnections room).getD [] <;> simp [hmem]

theorem joinRoom_userConnections (s : WSState) (c : String) (room : JsStr) (now : Nat) :
    (joinRoom s c room now).1.userConnections = s.userConnections := by
  unfold joinRoom
  cases mapGet s.clients c with
  | none => rfl
  | some client =>
    by_cases hmem : c ∈ (mapGet s.roomConnections room).getD [] <;> simp [hmem]

/-! A concrete scenario shared by witnesses and counterexamples: two clients
registered, authenticated as u1 and u2 with role staff in room 101. -/

/-- Authentication payload used by the demo scenario. -/
def demoAuthP (u : String) : InPayload :=
  { userId := some u, role := some "staff", roomNumber := some "101" }

/-- Authenticate message used by the demo scenario. -/
def demoM (u : String) : InMessage := ⟨"authenticate", some (demoAuthP u)⟩

/-- Demo state: c1 registered. -/
def demoS1 : WSState := (register initState "c1" 0).1

/-- Demo state: c1 and c2 registered. -/
def demoS2 : WSState := (register demoS1 "c2" 0).1

/-- Demo state: c1 additionally authenticated as u1 (joining room 101). -/
def demoS3 : WSState := (onRawMessage demoS2 "c1" (some (demoM "u1")) 1).1

/-- Demo state: c2 additionally authenticated as u2 (joining room 101). -/
def demoS4 : WSState := (onRawMessage demoS3 "c2" (some (demoM "u2")) 2).1

theorem demoS3_reachable : Reachable demoS3 :=
  Reachable.message (Reachable.register (Reachable.register Reachable.init (by decide)) (by decide))

theorem demoS4_reachable : Reachable demoS4 :=
  Reachable.message demoS3_reachable

/-- Demo state: c1 re-authenticates with the same identity u1, duplicating
its byUser entry. -/
def demoDup : WSState := (onRawMessage demoS3 "c1" (some (demoM "u1")) 5).1

theorem demoDup_reachable : Reachable demoDup :=
  Reachable.message demoS3_reachable

/-- Demo state: c1 re-authenticates as a different user u2. -/
def demoRebind : WSState := (onRawMessage demoS3 "c1" (some (demoM "u2")) 5).1

theorem demoRebind_reachable : Reachable demoRebind :=
  Reachable.message demoS3_reachable

/-! Claim C5. -/

/-- C5 counterexample: the claim says a fresh authenticate call removes the
byUser mapping under the previous userId, so a connection appears under at
most one userId. In the code authenticateClient only appends under the new
userId: after c1 authenticates as u1 and then as u2, the reachable state
demoRebind keeps c1 under both u1 and u2 in the byUser index. -/
theorem C5_counterexample :
    Reachable demoRebind ∧
    mapGet demoRebind.userConnections (some "u1") = some ["c1"] ∧
    mapGet demoRebind.userConnections (some "u2") = some ["c1"] := by
  refine ⟨demoRebind_reachable, by decide, by decide⟩

/-- C5 (amended): the authenticate handler fully replaces the connection's
identity fields and appends the connection to the byUser entry of the new
userId, but it does not remove the mapping under the previous userId: every
other byUser key is left unchanged, so a connection can appear under several
userIds (and several times under one). -/
theorem C5_amended_bind_appends (s : WSState) (c : String) (client : ConnectedClient)
    (p : InPayload) (now : Nat) (u : JsStr) (hc : mapGet s.clients c = some client) :
    mapGet (onRawMessage s c (some ⟨"authenticate", some p⟩) now).1.clients c
      = some { client with userId := p.userId, role := p.role, roomNumber := p.roomNumber } ∧
    mapGet (onRawMessage s c (some ⟨"authenticate", some p⟩) now).1.userConnections p.userId
      = some ((mapGet s.userConnections p.userId).getD [] ++ [c]) ∧
    (u ≠ p.userId →
      mapGet (onRawMessage s c (some ⟨"authenticate", some p⟩) now).1.userConnections u
        = mapGet s.userConnections u) := by
  simp only [onRawMessage, handleMessage, authenticateClient, hc]
  simp only [reduceIte]
  by_cases hroom : truthy p.roomNumber
  · simp only [hroom, if_true]
    refine ⟨?_, ?_, fun hu => ?_⟩
    · rw [joinRoom_clients]
      exact mapGet_mapSet_self _ _ _
    · rw [joinRoom_userConnections]
      exact mapGet_mapSet_self _ _ _
    · rw [joinRoom_userConnections]
      exact mapGet_mapSet_ne _ _ _ _ hu
  · simp only [hroom, if_false]
    refine ⟨mapGet_mapSet_self _ _ _, mapGet_mapSet_self _ _ _,
      fun hu => mapGet_mapSet_ne _ _ _ _ hu⟩

/-- C5 witness: the amended bind behavior evaluated on the demo scenario. -/
theorem C5_amended_bind_appends_witness :
    mapGet (onRawMessage demoS3 "c1" (some ⟨"authenticate", some (demoAuthP "u2")⟩) 5).1.clients "c1"
      = some { id := "c1", userId := some "u2", role := some "staff",
               roomNumber := some "101", lastPing := 0 } ∧
    mapGet (onRawMessage demoS3 "c1" (some ⟨"authenticate", some (demoAuthP "u2")⟩) 5).1.userConnections
        (some "u2")
      = some ((mapGet demoS3.userConnections (some "u2")).getD [] ++ ["c1"]) ∧
    (some "u1" ≠ (demoAuthP "u2").userId →
      mapGet (onRawMessage demoS3 "c1" (some ⟨"authenticate", some (demoAuthP "u2")⟩) 5).1.userConnections
          (some "u1")
        = mapGet demoS3.userConnections (some "u1")) := by
  exact C5_amended_bind_appends demoS3 "c1"
    { id := "c1", userId := some "u1", role := some "staff",
      roomNumber := some "101", lastPing := 0 }
    (demoAuthP "u2") 5 (some "u1") (by decide)

/-! Claim C10. -/

/-- C10 (confirmed): an authenticate message whose payload carries a (truthy)
roomNumber also joins that room: the connection is added to the byRoom entry
of that room, and the emitted events are exactly the user_joined broadcast to
the room (excluding the joiner) followed last by the authentication-success
acknowledgment to the authenticating connection. -/
theorem C10_authenticate_joins_room (s : WSState) (c : String) (client : ConnectedClient)
    (p : InPayload) (now : Nat) (r : String) (hc : mapGet s.clients c = some client)
    (hroom : p.roomNumber = some r) (hr : r ≠ "") :
    c ∈ (mapGet (onRawMessage s c (some ⟨"authenticate", some p⟩) now).1.roomConnections
          (some r)).getD [] ∧
    (onRawMessage s c (some ⟨"authenticate", some p⟩) now).2
      = broadcastToRoom (onRawMessage s c (some ⟨"authenticate", some p⟩) now).1 (some r)
          ⟨"user_joined", .userEvent p.userId (some r), now⟩ (some c)
        ++ [Event.send c ⟨"system_message", .authSuccess p.userId p.role, now⟩] := by
  have htruthy : truthy (some r) = true := by
    simpa [truthy] using hr
  simp only [onRawMessage, handleMessage, authenticateClient, hc]
  simp only [reduceIte, hroom, htruthy, if_true]
  rw [joinRoom]
  rw [mapGet_mapSet_self]
  simp only
  by_cases hmem : c ∈ (mapGet s.roomConnections (some r)).getD []
  · simp only [hmem, if_true]
    refine ⟨trivial, ?_⟩
    simp only [sendMessage, mapGet_mapSet_self]
  · simp only [hmem, if_false]
    refine ⟨?_, ?_⟩
    · rw [mapGet_mapSet_self]
      simp
    · simp only [sendMessage, mapGet_mapSet_self]

/-- C10 witness: authenticating c2 with roomNumber 101 in the demo scenario
joins room 101 and orders the user_joined broadcast before the success
acknowledgment. -/
theorem C10_authenticate_joins_room_witness :
    "c2" ∈ (mapGet (onRawMessage demoS3 "c2" (some ⟨"authenticate", some (demoAuthP "u2")⟩) 2).1.roomConnections
          (some "101")).getD [] ∧
    (onRawMessage demoS3 "c2" (some ⟨"authenticate", some (demoAuthP "u2")⟩) 2).2
      = broadcastToRoom (onRawMessage demoS3 "c2" (some ⟨"authenticate", some (demoAuthP "u2")⟩) 2).1
          (some "101") ⟨"user_joined", .userEvent (demoAuthP "u2").userId (some "101"), 2⟩ (some "c2")
        ++ [Event.send "c2" ⟨"system_message",
              .authSuccess (demoAuthP "u2").userId (demoAuthP "u2").role, 2⟩] := by
  exact C10_authenticate_joins_room demoS3 "c2"
    { id := "c2", userId := none, role := none, roomNumber := none, lastPing := 0 }
    (demoAuthP "u2") 2 "101" (by decide) (by decide) (by decide)

/-! Claim C4. -/

/-- Demo state: c1 has left room 101 once (c2 remains in the room). -/
def demoLeft1 : WSState :=
  (onRawMessage demoS4 "c1" (some ⟨"leave_room", some { room := some "101" }⟩) 3).1

/-- C4 counterexample: the claim says a second leave_room for the same room
emits no second user_left broadcast. In the reachable demo scenario, both the
first and the second leave_room of c1 for room 101 broadcast a user_left to
the remaining member c2 (the second call leaves the state unchanged but still
emits the event). -/
theorem C4_counterexample :
    Reachable demoS4 ∧
    (onRawMessage demoS4 "c1" (some ⟨"leave_room", some { room := some "101" }⟩) 3).2
      = [Event.send "c2" ⟨"user_left", .userEvent (some "u1") (some "101"), 3⟩] ∧
    onRawMessage demoLeft1 "c1" (some ⟨"leave_room", some { room := some "101" }⟩) 4
      = (demoLeft1, [Event.send "c2" ⟨"user_left", .userEvent (some "u1") (some "101"), 4⟩]) := by
  exact ⟨demoS4_reachable, by decide, by decide⟩

/-- C4 (amended): joinRoom on an already-joined room and leaveRoom on a
non-joined room are idempotent on the registry state and never error, but
they are not free of side effects: each call still unconditionally broadcasts
its user_joined (to the room, excluding the caller) or user_left (to the
whole room) event, so repeated calls produce duplicate events. -/
theorem C4_amended_state_idempotent (s : WSState) (c : String) (client : ConnectedClient)
    (room : JsStr) (now : Nat) (hc : mapGet s.clients c = some client) :
    (c ∈ (mapGet s.roomConnections room).getD [] →
      joinRoom s c room now
        = (s, broadcastToRoom s room ⟨"user_joined", .userEvent client.userId room, now⟩ (some c))) ∧
    (c ∉ (mapGet s.roomConnections room).getD [] →
      leaveRoom s c room now
        = (s, broadcastToRoom s room ⟨"user_left", .userEvent client.userId room, now⟩ none)) := by
  constructor
  · intro hmem
    rw [joinRoom, hc]
    simp [hmem]
  · intro hmem
    rw [leaveRoom, hc]
    simp [hmem]

/-- C4 witness: re-joining room 101, which c1 already joined, leaves the
demo state unchanged while still broadcasting user_joined. -/
theorem C4_amended_state_idempotent_witness :
    ("c1" ∈ (mapGet demoS4.roomConnections (some "101")).getD [] →
      joinRoom demoS4 "c1" (some "101") 7
        = (demoS4, broadcastToRoom demoS4 (some "101")
            ⟨"user_joined", .userEvent (some "u1") (some "101"), 7⟩ (some "c1"))) ∧
    ("c1" ∉ (mapGet demoS4.roomConnections (some "101")).getD [] →
      leaveRoom demoS4 "c1" (some "101") 7
        = (demoS4, broadcastToRoom demoS4 (some "101")
            ⟨"user_left", .userEvent (some "u1") (some "101"), 7⟩ none)) := by
  exact C4_amended_state_idempotent demoS4 "c1"
    { id := "c1", userId := some "u1", role := some "staff",
      roomNumber := some "101", lastPing := 0 }
    (some "101") 7 (by decide)

/-! Claim C6. -/

/-- C6 counterexample: the claim says every registry operation on an unknown
connection id emits no broadcast. leaveRoom has no unknown-id guard: invoked
with the unknown id ghost on the reachable demo state it still broadcasts a
user_left (with an undefined userId) to both members of room 101. -/
theorem C6_counterexample :
    Reachable demoS4 ∧ mapGet demoS4.clients "ghost" = none ∧
    (leaveRoom demoS4 "ghost" (some "101") 9).2
      = [Event.send "c1" ⟨"user_left", .userEvent none (some "101"), 9⟩,
         Event.send "c2" ⟨"user_left", .userEvent none (some "101"), 9⟩] := by
  exact ⟨demoS4_reachable, by decide, by decide⟩

/-- C6 (amended): on an unknown connection id, authenticate, joinRoom,
unregister, and the whole message handler are no-ops that never throw and
send nothing; leaveRoom on an unknown id mutates no index and never throws,
but still broadcasts a user_left event (with an undefined userId) to the
room's current members. -/
theorem C6_amended_unknown_id (s : WSState) (c : String) (p : InPayload) (room : JsStr)
    (now : Nat) (m : InMessage) (hc : mapGet s.clients c = none)
    (hnm : c ∉ (mapGet s.roomConnections room).getD []) :
    authenticateClient s c (some p) now = .ok (s, []) ∧
    joinRoom s c room now = (s, []) ∧
    removeClient s c now = (s, []) ∧
    onRawMessage s c (some m) now = (s, []) ∧
    onRawMessage s c none now = (s, []) ∧
    leaveRoom s c room now
      = (s, broadcastToRoom s room ⟨"user_left", .userEvent none room, now⟩ none) := by
  refine ⟨?_, ?_, ?_, ?_, ?_, ?_⟩
  · simp [authenticateClient, hc]
  · simp [joinRoom, hc]
  · simp [removeClient, hc]
  · simp [onRawMessage, handleMessage, hc]
  · simp [onRawMessage, sendError, sendMessage, hc]
  · simp [leaveRoom, hc, hnm]

/-- C6 witness: the amended unknown-id behavior evaluated for the id ghost
on the demo state. -/
theorem C6_amended_unknown_id_witness :
    authenticateClient demoS4 "ghost" (some (demoAuthP "u9")) 9 = .ok (demoS4, []) ∧
    joinRoom demoS4 "ghost" (some "101") 9 = (demoS4, []) ∧
    removeClient demoS4 "ghost" 9 = (demoS4, []) ∧
    onRawMessage demoS4 "ghost" (some ⟨"join_room", some { room := some "101" }⟩) 9 = (demoS4, []) ∧
    onRawMessage demoS4 "ghost" none 9 = (demoS4, []) ∧
    leaveRoom demoS4 "ghost" (some "102") 9
      = (demoS4, broadcastToRoom demoS4 (some "102")
          ⟨"user_left", .userEvent none (some "102"), 9⟩ none) := by
  exact C6_amended_unknown_id demoS4 "ghost" (demoAuthP "u9") (some "102") 9
    ⟨"join_room", some { room := some "101" }⟩ (by decide) (by decide)

/-! Claim C7. -/

/-- C7 counterexample: the claim says any message whose type is not one of
the four recognized control types yields a system_message error reply to the
sender. In the code the default case of handleMessage only logs: a well-formed
message of type bogus from the live connection c1 produces no reply at all. -/
theorem C7_counterexample :
    Reachable demoS4 ∧ (mapGet demoS4.clients "c1").isSome = true ∧
    onRawMessage demoS4 "c1" (some ⟨"bogus", some { room := some "101" }⟩) 9 = (demoS4, []) := by
  exact ⟨demoS4_reachable, by decide, by decide⟩

/-- C7 (amended): unparseable inbound data, and recognized control messages
whose payload object is missing (whose handling throws before any mutation),
yield the Invalid-message-format system_message error reply to the sender
only, with the state unchanged and the connection kept open; a well-formed
message with an unrecognized type is only logged — no reply is sent — and the
connection also remains open. -/
theorem C7_amended_protocol_errors (s : WSState) (c : String) (m : InMessage) (now : Nat)
    (client : ConnectedClient) (hc : mapGet s.clients c = some client) :
    onRawMessage s c none now
      = (s, [Event.send c ⟨"system_message", .err "Invalid message format", now⟩]) ∧
    (m.type ≠ "authenticate" → m.type ≠ "join_room" → m.type ≠ "leave_room" → m.type ≠ "ping" →
      onRawMessage s c (some m) now = (s, [])) ∧
    ((m.type = "authenticate" ∨ m.type = "join_room" ∨ m.type = "leave_room") →
      m.payload = none →
      onRawMessage s c (some m) now
        = (s, [Event.send c ⟨"system_message", .err "Invalid message format", now⟩])) := by
  obtain ⟨mt, mp⟩ := m
  refine ⟨?_, ?_, ?_⟩
  · simp [onRawMessage, sendError, sendMessage, hc]
  · intro h1 h2 h3 h4
    simp only at h1 h2 h3 h4
    simp only [onRawMessage, handleMessage, hc]
    rw [if_neg h1, if_neg h2, if_neg h3, if_neg h4]
  · intro hty hpl
    simp only at hty hpl
    subst hpl
    rcases hty with h | h | h <;> subst h <;>
      simp [onRawMessage, handleMessage, authenticateClient, hc, sendError, sendMessage]

/-- C7 witness: the amended protocol-error behavior evaluated on the demo
state for the connection c1 and a payload-less join_room message. -/
theorem C7_amended_protocol_errors_witness :
    onRawMessage demoS4 "c1" none 9
      = (demoS4, [Event.send "c1" ⟨"system_message", .err "Invalid message format", 9⟩]) ∧
    ((⟨"join_room", none⟩ : InMessage).type ≠ "authenticate" →
      (⟨"join_room", none⟩ : InMessage).type ≠ "join_room" →
      (⟨"join_room", none⟩ : InMessage).type ≠ "leave_room" →
      (⟨"join_room", none⟩ : InMessage).type ≠ "ping" →
      onRawMessage demoS4 "c1" (some ⟨"join_room", none⟩) 9 = (demoS4, [])) ∧
    (((⟨"join_room", none⟩ : InMessage).type = "authenticate" ∨
      (⟨"join_room", none⟩ : InMessage).type = "join_room" ∨
      (⟨"join_room", none⟩ : InMessage).type = "leave_room") →
      (⟨"join_room", none⟩ : InMessage).payload = none →
      onRawMessage demoS4 "c1" (some ⟨"join_room", none⟩) 9
        = (demoS4, [Event.send "c1" ⟨"system_message", .err "Invalid message format", 9⟩])) := by
  exact C7_amended_protocol_errors demoS4 "c1" ⟨"join_room", none⟩ 9
    { id := "c1", userId := some "u1", role := some "staff",
      roomNumber := some "101", lastPing := 0 } (by decide)

/-! Claim C2. -/

/-- Demo state: c1 registered and joined room 101 without authenticating. -/
def demoJoin : WSState :=
  (onRawMessage demoS1 "c1" (some ⟨"join_room", some { room := some "101" }⟩) 1).1

/-- Demo state: c1 then left room 101 again. -/
def demoEmptyRoom : WSState :=
  (onRawMessage demoJoin "c1" (some ⟨"leave_room", some { room := some "101" }⟩) 2).1

/-- C2 counterexample: the claim says neither index retains a key mapped to
an empty member set. leaveRoom and removeClient keep the byRoom key after
splicing out the last member: after c1 joins and then leaves room 101, the
reachable state demoEmptyRoom maps room 101 to the empty list. -/
theorem C2_counterexample :
    Reachable demoEmptyRoom ∧
    mapGet demoEmptyRoom.roomConnections (some "101") = some [] := by
  refine ⟨Reachable.message (Reachable.message (Reachable.register Reachable.init (by decide))),
    by decide⟩

/-- C2 (amended): in every reachable state the byUser index retains no key
mapped to an empty member set (removeClient deletes a byUser key when its
last member is removed); the byRoom index does not enjoy this property. -/
theorem C2_amended_byUser_no_empty (s : WSState) (u : JsStr) (h : Reachable s) :
    mapGet s.userConnections u ≠ some [] := by
  intro hu
  exact (reachable_wf h).2.2 (u, []) (mapGet_mem hu) rfl

/-- C2 witness: the byUser entry of u1 in the reachable demo state is not
empty. -/
theorem C2_amended_byUser_no_empty_witness :
    mapGet demoS4.userConnections (some "u1") ≠ some [] :=
  C2_amended_byUser_no_empty demoS4 (some "u1") demoS4_reachable

/-! Claim C9. -/

/-- Whether an event is a verbatim send of the given envelope. -/
def isSendOf (env : Envelope) : Event → Bool
  | .send _ env2 => env2 = env
  | _ => false

theorem sendTargets_room_env (s : WSState) (room : JsStr) (excl : Option String)
    (env1 env2 : Envelope) :
    sendTargets (broadcastToRoom s room env1 excl)
      = sendTargets (broadcastToRoom s room env2 excl) := by
  unfold broadcastToRoom
  generalize (mapGet s.roomConnections room).getD [] = l
  induction l with
  | nil => rfl
  | cons a l ih =>
    rw [List.flatMap_cons, List.flatMap_cons, sendTargets_append, sendTargets_append, ih]
    by_cases hx : some a = excl
    · simp [hx]
    · simp [hx, sendTargets_sendMessage]

theorem sendTargets_role_env (s : WSState) (roleName : String) (env1 env2 : Envelope) :
    sendTargets (broadcastToRole s roleName env1)
      = sendTargets (broadcastToRole s roleName env2) := by
  unfold broadcastToRole
  generalize s.clients = l
  induction l with
  | nil => rfl
  | cons a l ih =>
    rw [List.flatMap_cons, List.flatMap_cons, sendTargets_append, sendTargets_append, ih]
    by_cases hx : a.2.role = some roleName
    · simp [hx, sendTargets_sendMessage]
    · simp [hx]

theorem all_isSendOf_flatMap {α : Type} (l : List α) (f : α → List Event) (env : Envelope)
    (hf : ∀ a, (f a).all (isSendOf env) = true) :
    (l.flatMap f).all (isSendOf env) = true := by
  rw [List.all_eq_true]
  intro e he
  rcases List.mem_flatMap.mp he with ⟨a, _, hea⟩
  exact List.all_eq_true.mp (hf a) e hea

theorem all_isSendOf_sendMessage (s : WSState) (c : String) (env : Envelope) :
    (sendMessage s c env).all (isSendOf env) = true := by
  unfold sendMessage
  cases mapGet s.clients c <;> simp [isSendOf]

/-- C9 (amended): the four broadcast calls never inspect the envelope's
payload: the selected target set is identical for any two envelopes that
differ only in their payload, and every emitted event carries the input
envelope verbatim. Inbound control-message handling, by contrast, does read
payload fields (counterexample), so the amendment restricts payload opacity
to the Dispatcher's broadcast calls. -/
theorem C9_amended_broadcast_payload_opaque (s : WSState) (room : JsStr)
    (excl : Option String) (u roleName ty : String) (p1 p2 : OutPayload) (ts : Nat) :
    sendTargets (broadcastToRoom s room ⟨ty, p1, ts⟩ excl)
      = sendTargets (broadcastToRoom s room ⟨ty, p2, ts⟩ excl) ∧
    sendTargets (broadcastToUser s u ⟨ty, p1, ts⟩)
      = sendTargets (broadcastToUser s u ⟨ty, p2, ts⟩) ∧
    sendTargets (broadcastToRole s roleName ⟨ty, p1, ts⟩)
      = sendTargets (broadcastToRole s roleName ⟨ty, p2, ts⟩) ∧
    sendTargets (broadcastToAll s ⟨ty, p1, ts⟩)
      = sendTargets (broadcastToAll s ⟨ty, p2, ts⟩) ∧
    (broadcastToRoom s room ⟨ty, p1, ts⟩ excl).all (isSendOf ⟨ty, p1, ts⟩) = true ∧
    (broadcastToUser s u ⟨ty, p1, ts⟩).all (isSendOf ⟨ty, p1, ts⟩) = true ∧
    (broadcastToRole s roleName ⟨ty, p1, ts⟩).all (isSendOf ⟨ty, p1, ts⟩) = true ∧
    (broadcastToAll s ⟨ty, p1, ts⟩).all (isSendOf ⟨ty, p1, ts⟩) = true := by
  refine ⟨sendTargets_room_env s room excl _ _, ?_, sendTargets_role_env s roleName _ _, ?_,
    ?_, ?_, ?_, ?_⟩
  · unfold broadcastToUser
    rw [sendTargets_flatMap_sendMessage, sendTargets_flatMap_sendMessage]
  · unfold broadcastToAll
    rw [sendTargets_flatMap_sendMessage, sendTargets_flatMap_sendMessage]
  · refine all_isSendOf_flatMap _ _ _ fun a => ?_
    by_cases hx : some a = excl
    · simp [hx]
    · simpa [hx] using all_isSendOf_sendMessage s a _
  · exact all_isSendOf_flatMap _ _ _ fun a => all_isSendOf_sendMessage s a _
  · refine all_isSendOf_flatMap _ _ _ fun a => ?_
    by_cases hx : a.2.role = some roleName
    · simpa [hx] using all_isSendOf_sendMessage s a.1 _
    · simp [hx]
  · exact all_isSendOf_flatMap _ _ _ fun a => all_isSendOf_sendMessage s a _

/-- C9 counterexample: the claim extends payload opacity to message
handling, but handleMessage reads payload fields. Two join_room messages
from c1 that agree on type and differ only in their payload (room 101
versus room 102) produce different send-target sets on the reachable demo
state, so message handling does inspect the payload. -/
theorem C9_counterexample :
    (⟨"join_room", some { room := some "101" }⟩ : InMessage).type
      = (⟨"join_room", some { room := some "102" }⟩ : InMessage).type ∧
    (⟨"join_room", some { room := some "101" }⟩ : InMessage).payload
      ≠ (⟨"join_room", some { room := some "102" }⟩ : InMessage).payload ∧
    sendTargets (onRawMessage demoS4 "c1" (some ⟨"join_room", some { room := some "101" }⟩) 9).2
      ≠ sendTargets (onRawMessage demoS4 "c1" (some ⟨"join_room", some { room := some "102" }⟩) 9).2 := by
  refine ⟨rfl, by decide, by decide⟩

/-! Claim C1. -/

/-- C1 counterexample: the claim says at-most-once delivery per target per
call holds after any sequence of authenticate calls. After c1 authenticates
twice as u1, the byUser entry of u1 lists c1 twice in the reachable state
demoDup, and one broadcastToUser call delivers the same envelope to the live
connection c1 twice. -/
theorem C1_counterexample :
    Reachable demoDup ∧ (mapGet demoDup.clients "c1").isSome = true ∧
    broadcastToUser demoDup "u1" ⟨"notification", .appData "n", 6⟩
      = [Event.send "c1" ⟨"notification", .appData "n", 6⟩,
         Event.send "c1" ⟨"notification", .appData "n", 6⟩] := by
  exact ⟨demoDup_reachable, by decide, by decide⟩

/-- C1 (amended): in every reachable state, broadcastToRoom, broadcastToRole
and broadcastToAll deliver to each live connection at most once per call
(their target lists are duplicate-free); broadcastToUser delivers once per
occurrence of the connection in the byUser entry of the user, and repeated
authenticate calls append duplicate occurrences, so it can deliver the same
envelope to one connection several times in a single call. -/
theorem C1_amended_at_most_once (s : WSState) (h : Reachable s) (env : Envelope)
    (room : JsStr) (excl : Option String) (u roleName : String) :
    (sendTargets (broadcastToRoom s room env excl)).Nodup ∧
    (sendTargets (broadcastToRole s roleName env)).Nodup ∧
    (sendTargets (broadcastToAll s env)).Nodup ∧
    sendTargets (broadcastToUser s u env)
      = ((mapGet s.userConnections (some u)).getD []).filter
          (fun cid => (mapGet s.clients cid).isSome) := by
  obtain ⟨h1, h2, h3⟩ := reachable_wf h
  refine ⟨?_, ?_, ?_, ?_⟩
  · have hsub : List.Sublist (sendTargets (broadcastToRoom s room env excl))
        (((mapGet s.roomConnections room).getD []).map id) := by
      apply sendTargets_flatMap_sublist _ id
      intro a
      by_cases hx : some a = excl
      · simp [hx, sendTargets]
      · simpa [hx] using sendTargets_sendMessage_sublist s a env
    exact ((roomConns_nodup s room h2).sublist (by simpa using hsub))
  · have hsub : List.Sublist (sendTargets (broadcastToRole s roleName env))
        (s.clients.map Prod.fst) := by
      apply sendTargets_flatMap_sublist _ Prod.fst
      intro a
      by_cases hx : a.2.role = some roleName
      · simpa [hx] using sendTargets_sendMessage_sublist s a.1 env
      · simp [hx, sendTargets]
    exact h1.sublist hsub
  · have hsub : List.Sublist (sendTargets (broadcastToAll s env))
        ((s.clients.map Prod.fst).map id) := by
      apply sendTargets_flatMap_sublist _ id
      intro a
      exact sendTargets_sendMessage_sublist s a env
    exact h1.sublist (by simpa using hsub)
  · exact sendTargets_flatMap_sendMessage s env _

/-- C1 witness: the amended at-most-once property evaluated on the reachable
demo state with both clients authenticated into room 101. -/
theorem C1_amended_at_most_once_witness :
    (sendTargets (broadcastToRoom demoS4 (some "101") ⟨"ticket_update", .appData "T1", 9⟩ none)).Nodup ∧
    (sendTargets (broadcastToRole demoS4 "staff" ⟨"ticket_update", .appData "T1", 9⟩)).Nodup ∧
    (sendTargets (broadcastToAll demoS4 ⟨"ticket_update", .appData "T1", 9⟩)).Nodup ∧
    sendTargets (broadcastToUser demoS4 "u1" ⟨"ticket_update", .appData "T1", 9⟩)
      = ((mapGet demoS4.userConnections (some "u1")).getD []).filter
          (fun cid => (mapGet demoS4.clients cid).isSome) := by
  exact C1_amended_at_most_once demoS4 demoS4_reachable
    ⟨"ticket_update", .appData "T1", 9⟩ (some "101") none "u1" "staff"

/-! Frame lemmas for removeClient and its room loop. -/

theorem removeUserIndex_clients (s : WSState) (c : String) (uid : JsStr) :
    (removeUserIndex s c uid).clients = s.clients := by
  simp only [removeUserIndex]
  split_ifs <;> rfl

theorem removeUserIndex_roomConnections (s : WSState) (c : String) (uid : JsStr) :
    (removeUserIndex s c uid).roomConnections = s.roomConnections := by
  simp only [removeUserIndex]
  split_ifs <;> rfl

theorem roomStep_clients (c : String) (uid : JsStr) (now : Nat)
    (acc : WSState × List Event) (k : JsStr) :
    (removeClientRoomStep c uid now acc k).1.clients = acc.1.clients := by
  simp only [removeClientRoomStep]
  split_ifs <;> rfl

theorem roomStep_userConnections (c : String) (uid : JsStr) (now : Nat)
    (acc : WSState × List Event) (k : JsStr) :
    (removeClientRoomStep c uid now acc k).1.userConnections = acc.1.userConnections := by
  simp only [removeClientRoomStep]
  split_ifs <;> rfl

theorem foldl_roomStep_clients (c : String) (uid : JsStr) (now : Nat)
    (keys : List JsStr) (acc : WSState × List Event) :
    ((keys.foldl (removeClientRoomStep c uid now) acc)).1.clients = acc.1.clients := by
  induction keys generalizing acc with
  | nil => rfl
  | cons k ks ih =>
    rw [List.foldl_cons, ih]
    exact roomStep_clients c uid now acc k

theorem foldl_roomStep_userConnections (c : String) (uid : JsStr) (now : Nat)
    (keys : List JsStr) (acc : WSState × List Event) :
    ((keys.foldl (removeClientRoomStep c uid now) acc)).1.userConnections
      = acc.1.userConnections := by
  induction keys generalizing acc with
  | nil => rfl
  | cons k ks ih =>
    rw [List.foldl_cons, ih]
    exact roomStep_userConnections c uid now acc k

theorem removeClient_clients_of_some (s : WSState) (c : String) (client : ConnectedClient)
    (now : Nat) (hc : mapGet s.clients c = some client) :
    (removeClient s c now).1.clients = mapDelete s.clients c := by
  simp only [removeClient, hc]
  rw [foldl_roomStep_clients, removeUserIndex_clients]

theorem removeClient_clients_self (s : WSState) (c : String) (now : Nat) :
    mapGet (removeClient s c now).1.clients c = none := by
  cases hc : mapGet s.clients c with
  | none => simp only [removeClient, hc]
  | some client =>
    rw [removeClient_clients_of_some s c client now hc]
    exact mapGet_mapDelete_self _ _

theorem removeClient_clients_ne (s : WSState) (c x : String) (now : Nat) (hx : x ≠ c) :
    mapGet (removeClient s c now).1.clients x = mapGet s.clients x := by
  cases hc : mapGet s.clients c with
  | none => simp only [removeClient, hc]
  | some client =>
    rw [removeClient_clients_of_some s c client now hc]
    exact mapGet_mapDelete_ne _ _ _ hx

theorem removeClient_clients_none (s : WSState) (c x : String) (now : Nat)
    (hx : mapGet s.clients x = none) :
    mapGet (removeClient s c now).1.clients x = none := by
  by_cases hxc : x = c
  · subst hxc
    exact removeClient_clients_self s x now
  · rw [removeClient_clients_ne s c x now hxc]
    exact hx

theorem removeClient_userConnections (s : WSState) (c : String) (client : ConnectedClient)
    (now : Nat) (hc : mapGet s.clients c = some client) :
    (removeClient s c now).1.userConnections
      = (removeUserIndex s c client.userId).userConnections := by
  simp only [removeClient, hc]
  rw [foldl_roomStep_userConnections]

theorem roomStep_get_ne (c : String) (uid : JsStr) (now : Nat)
    (acc : WSState × List Event) (k r : JsStr) (hkr : r ≠ k) :
    mapGet (removeClientRoomStep c uid now acc k).1.roomConnections r
      = mapGet acc.1.roomConnections r := by
  unfold removeClientRoomStep
  by_cases hmem : c ∈ (mapGet acc.1.roomConnections k).getD []
  · simp only [hmem, if_true]
    exact mapGet_mapSet_ne _ _ _ _ hkr
  · simp [hmem]

theorem roomStep_roomMem (c : String) (uid : JsStr) (now : Nat)
    (acc : WSState × List Event) (k : JsStr) (x : String) (r : JsStr) (hx : x ≠ c)
    (h : x ∈ (mapGet acc.1.roomConnections r).getD []) :
    x ∈ (mapGet (removeClientRoomStep c uid now acc k).1.roomConnections r).getD [] := by
  by_cases hkr : r = k
  · subst hkr
    unfold removeClientRoomStep
    by_cases hmem : c ∈ (mapGet acc.1.roomConnections r).getD []
    · simp only [hmem, if_true]
      rw [mapGet_mapSet_self]
      simpa using (List.mem_erase_of_ne hx).mpr h
    · simpa [hmem] using h
  · rw [roomStep_get_ne c uid now acc k r hkr]
    exact h

theorem foldl_roomStep_roomMem (c : String) (uid : JsStr) (now : Nat)
    (keys : List JsStr) (acc : WSState × List Event) (x : String) (r : JsStr) (hx : x ≠ c)
    (h : x ∈ (mapGet acc.1.roomConnections r).getD []) :
    x ∈ (mapGet ((keys.foldl (removeClientRoomStep c uid now) acc)).1.roomConnections r).getD [] := by
  induction keys generalizing acc with
  | nil => exact h
  | cons k ks ih =>
    rw [List.foldl_cons]
    exact ih _ (roomStep_roomMem c uid now acc k x r hx h)

theorem removeClient_roomMem (s : WSState) (c : String) (now : Nat) (x : String) (r : JsStr)
    (hx : x ≠ c) (h : x ∈ (mapGet s.roomConnections r).getD []) :
    x ∈ (mapGet (removeClient s c now).1.roomConnections r).getD [] := by
  cases hc : mapGet s.clients c with
  | none => simp only [removeClient, hc]; exact h
  | some client =>
    simp only [removeClient, hc]
    apply foldl_roomStep_roomMem c client.userId now _ _ x r hx
    rw [removeUserIndex_roomConnections]
    exact h

theorem roomStep_purge_preserved (c : String) (uid : JsStr) (now : Nat)
    (acc : WSState × List Event) (k r : JsStr)
    (h : c ∉ (mapGet acc.1.roomConnections r).getD []) :
    c ∉ (mapGet (removeClientRoomStep c uid now acc k).1.roomConnections r).getD [] := by
  by_cases hkr : r = k
  · subst hkr
    unfold removeClientRoomStep
    by_cases hmem : c ∈ (mapGet acc.1.roomConnections r).getD []
    · exact absurd hmem h
    · simpa [hmem] using h
  · rw [roomStep_get_ne c uid now acc k r hkr]
    exact h

theorem roomStep_purges (c : String) (uid : JsStr) (now : Nat)
    (acc : WSState × List Event) (k : JsStr)
    (hnodup : ((mapGet acc.1.roomConnections k).getD []).Nodup) :
    c ∉ (mapGet (removeClientRoomStep c uid now acc k).1.roomConnections k).getD [] := by
  unfold removeClientRoomStep
  by_cases hmem : c ∈ (mapGet acc.1.roomConnections k).getD []
  · simp only [hmem, if_true]
    rw [mapGet_mapSet_self]
    intro hx
    exact ((List.Nodup.mem_erase_iff hnodup).mp (by simpa using hx)).1 rfl
  · simp only [hmem, if_false]
    exact not_false

theorem foldl_roomStep_purges (c : String) (uid : JsStr) (now : Nat)
    (keys : List JsStr) (acc : WSState × List Event) (r : JsStr) (hwf : WF acc.1)
    (h : r ∈ keys ∨ c ∉ (mapGet acc.1.roomConnections r).getD []) :
    c ∉ (mapGet ((keys.foldl (removeClientRoomStep c uid now) acc)).1.roomConnections r).getD [] := by
  induction keys generalizing acc with
  | nil =>
    rcases h with h | h
    · exact absurd h (List.not_mem_nil r)
    · exact h
  | cons k ks ih =>
    rw [List.foldl_cons]
    apply ih _ (wf_removeClientRoomStep c uid now acc k hwf)
    by_cases hkr : r = k
    · subst hkr
      exact Or.inr (roomStep_purges c uid now acc r (roomConns_nodup acc.1 r hwf.2.1))
    · rcases h with h | h
      · rcases List.mem_cons.mp h with h | h
        · exact absurd h hkr
        · exact Or.inl h
      · exact Or.inr (roomStep_purge_preserved c uid now acc k r h)

theorem removeClient_purges_rooms (s : WSState) (c : String) (client : ConnectedClient)
    (now : Nat) (hwf : WF s) (hc : mapGet s.clients c = some client) (r : JsStr) :
    c ∉ (mapGet (removeClient s c now).1.roomConnections r).getD [] := by
  simp only [removeClient, hc]
  apply foldl_roomStep_purges c client.userId now _ _ r
    (wf_removeUserIndex s c client.userId hwf)
  by_cases hmem : c ∈ (mapGet (removeUserIndex s c client.userId).roomConnections r).getD []
  · left
    cases hget : mapGet (removeUserIndex s c client.userId).roomConnections r with
    | none => rw [hget] at hmem; simp at hmem
    | some v => exact List.mem_map_of_mem Prod.fst (mapGet_mem hget)
  · exact Or.inr hmem

theorem removeUserIndex_get_ne (s : WSState) (c : String) (uid u : JsStr) (hu : u ≠ uid) :
    mapGet (removeUserIndex s c uid).userConnections u = mapGet s.userConnections u := by
  simp only [removeUserIndex]
  split_ifs <;>
    first
      | rfl
      | exact mapGet_mapDelete_ne _ _ _ hu
      | exact mapGet_mapSet_ne _ _ _ _ hu

theorem removeUserIndex_get_self (s : WSState) (c : String) (uid : JsStr)
    (ht : truthy uid = true) :
    mapGet (removeUserIndex s c uid).userConnections uid
      = (if c ∈ (mapGet s.userConnections uid).getD [] then
           (if ((mapGet s.userConnections uid).getD []).erase c = [] then none
            else some (((mapGet s.userConnections uid).getD []).erase c))
         else mapGet s.userConnections uid) := by
  simp only [removeUserIndex, ht, if_true]
  by_cases hmem : c ∈ (mapGet s.userConnections uid).getD []
  · simp only [hmem, if_true]
    by_cases hemp : ((mapGet s.userConnections uid).getD []).erase c = []
    · simp only [hemp, if_true]
      exact mapGet_mapDelete_self _ _
    · simp only [hemp, if_false]
      exact mapGet_mapSet_self _ _ _
  · simp only [hmem, if_false]

theorem removeUserIndex_not_truthy (s : WSState) (c : String) (uid : JsStr)
    (ht : ¬ truthy uid = true) :
    removeUserIndex s c uid = s := by
  simp [removeUserIndex, ht]

/-! Claim C3. -/

/-- Demo state: after c1 re-authenticated as u2, it is unregistered. -/
def demoGhostUser : WSState := (removeClient demoRebind "c1" 6).1

/-- C3 counterexample: the claim says unregister removes the connection from
every user-index entry it participates in. After c1 authenticates as u1 and
then as u2, it participates in the byUser entries of both; removeClient only
cleans the entry under the currently bound userId u2, so the reachable state
demoGhostUser no longer contains c1 yet still lists it under u1. -/
theorem C3_counterexample :
    Reachable demoGhostUser ∧
    mapGet demoGhostUser.clients "c1" = none ∧
    mapGet demoGhostUser.userConnections (some "u1") = some ["c1"] := by
  exact ⟨Reachable.close demoRebind_reachable, by decide, by decide⟩

/-- C3 (amended): unregister removes the connection from the primary set and
from every room-index entry, and is idempotent (a second unregister of the
same id returns the unchanged state and emits nothing). In the byUser index
it only splices one occurrence out of the entry under the currently bound
(truthy) userId, deleting that key when the entry empties; every other byUser
key — including entries under previously bound userIds — is left unchanged.
The removal emits the departure notifications itself instead of returning the
last-known identity. -/
theorem C3_amended_unregister (s : WSState) (c : String) (client : ConnectedClient)
    (now now2 : Nat) (r u : JsStr) (hwf : WF s) (hc : mapGet s.clients c = some client) :
    mapGet (removeClient s c now).1.clients c = none ∧
    c ∉ (mapGet (removeClient s c now).1.roomConnections r).getD [] ∧
    (u ≠ client.userId →
      mapGet (removeClient s c now).1.userConnections u = mapGet s.userConnections u) ∧
    (truthy client.userId = true →
      mapGet (removeClient s c now).1.userConnections client.userId
        = (if c ∈ (mapGet s.userConnections client.userId).getD [] then
             (if ((mapGet s.userConnections client.userId).getD []).erase c = [] then none
              else some (((mapGet s.userConnections client.userId).getD []).erase c))
           else mapGet s.userConnections client.userId)) ∧
    (¬ truthy client.userId = true →
      (removeClient s c now).1.userConnections = s.userConnections) ∧
    removeClient (removeClient s c now).1 c now2 = ((removeClient s c now).1, []) := by
  refine ⟨removeClient_clients_self s c now,
    removeClient_purges_rooms s c client now hwf hc r, ?_, ?_, ?_, ?_⟩
  · intro hu
    rw [removeClient_userConnections s c client now hc]
    exact removeUserIndex_get_ne s c client.userId u hu
  · intro ht
    rw [removeClient_userConnections s c client now hc]
    exact removeUserIndex_get_self s c client.userId ht
  · intro ht
    rw [removeClient_userConnections s c client now hc, removeUserIndex_not_truthy s c _ ht]
  · have h1 := removeClient_clients_self s c now
    conv_lhs => rw [removeClient.eq_def]
    rw [h1]

/-- C3 witness: the amended unregister behavior evaluated for c1 on the demo
state (both clients authenticated in room 101). -/
theorem C3_amended_unregister_witness :
    mapGet (removeClient demoS4 "c1" 9).1.clients "c1" = none ∧
    "c1" ∉ (mapGet (removeClient demoS4 "c1" 9).1.roomConnections (some "101")).getD [] ∧
    (some "u2" ≠ (some "u1" : JsStr) →
      mapGet (removeClient demoS4 "c1" 9).1.userConnections (some "u2")
        = mapGet demoS4.userConnections (some "u2")) ∧
    (truthy (some "u1") = true →
      mapGet (removeClient demoS4 "c1" 9).1.userConnections (some "u1")
        = (if "c1" ∈ (mapGet demoS4.userConnections (some "u1")).getD [] then
             (if ((mapGet demoS4.userConnections (some "u1")).getD []).erase "c1" = [] then none
              else some (((mapGet demoS4.userConnections (some "u1")).getD []).erase "c1"))
           else mapGet demoS4.userConnections (some "u1"))) ∧
    (¬ truthy (some "u1") = true →
      (removeClient demoS4 "c1" 9).1.userConnections = demoS4.userConnections) ∧
    removeClient (removeClient demoS4 "c1" 9).1 "c1" 10 = ((removeClient demoS4 "c1" 9).1, []) := by
  exact C3_amended_unregister demoS4 "c1"
    { id := "c1", userId := some "u1", role := some "staff",
      roomNumber := some "101", lastPing := 0 }
    9 10 (some "101") (some "u2") (by decide) (by decide)

/-! Event emission lemmas for removeClient. -/

theorem roomStep_events_prefix (c : String) (uid : JsStr) (now : Nat)
    (acc : WSState × List Event) (k : JsStr) :
    ∃ t, (removeClientRoomStep c uid now acc k).2 = acc.2 ++ t := by
  simp only [removeClientRoomStep]
  by_cases hmem : c ∈ (mapGet acc.1.roomConnections k).getD []
  · simp only [hmem, if_true]
    exact ⟨_, rfl⟩
  · simp only [hmem, if_false]
    exact ⟨[], by simp⟩

theorem foldl_roomStep_events_mem (c : String) (uid : JsStr) (now : Nat)
    (keys : List JsStr) (acc : WSState × List Event) (e : Event) (he : e ∈ acc.2) :
    e ∈ ((keys.foldl (removeClientRoomStep c uid now) acc)).2 := by
  induction keys generalizing acc with
  | nil => exact he
  | cons k ks ih =>
    rw [List.foldl_cons]
    apply ih
    rcases roomStep_events_prefix c uid now acc k with ⟨t, ht⟩
    rw [ht]
    exact List.mem_append_left t he

theorem foldl_roomStep_user_left (c : String) (uid : JsStr) (now : Nat)
    (keys : List JsStr) (acc : WSState × List Event) (p : String) (r : JsStr)
    (hpne : p ≠ c)
    (hp : (mapGet acc.1.clients p).isSome = true)
    (hcr : c ∈ (mapGet acc.1.roomConnections r).getD [])
    (hpr : p ∈ (mapGet acc.1.roomConnections r).getD [])
    (hkeys : r ∈ keys) :
    Event.send p ⟨"user_left", .userEvent uid r, now⟩
      ∈ ((keys.foldl (removeClientRoomStep c uid now) acc)).2 := by
  revert hkeys
  induction keys generalizing acc hp hcr hpr with
  | nil => intro hkeys; exact absurd hkeys (List.not_mem_nil r)
  | cons k ks ih =>
    intro hkeys
    rw [List.foldl_cons]
    by_cases hkr : k = r
    · subst hkr
      apply foldl_roomStep_events_mem
      simp only [removeClientRoomStep, hcr, if_true]
      apply List.mem_append_right
      unfold broadcastToRoom
      obtain ⟨v, hv⟩ := Option.isSome_iff_exists.mp hp
      rw [mapGet_mapSet_self]
      simp only [Option.getD_some]
      apply List.mem_flatMap.mpr
      refine ⟨p, (List.mem_erase_of_ne hpne).mpr hpr, ?_⟩
      simp [sendMessage, hv]
    · apply ih (removeClientRoomStep c uid now acc k)
      · rw [roomStep_clients]
        exact hp
      · rw [roomStep_get_ne c uid now acc k r (fun hh => hkr hh.symm)]
        exact hcr
      · rw [roomStep_get_ne c uid now acc k r (fun hh => hkr hh.symm)]
        exact hpr
      · rcases List.mem_cons.mp hkeys with h | h
        · exact absurd h.symm hkr
        · exact h

theorem removeClient_emits_user_left (s : WSState) (c : String) (client : ConnectedClient)
    (now : Nat) (p : String) (r : JsStr)
    (hc : mapGet s.clients c = some client) (hpne : p ≠ c)
    (hp : (mapGet s.clients p).isSome = true)
    (hcr : c ∈ (mapGet s.roomConnections r).getD [])
    (hpr : p ∈ (mapGet s.roomConnections r).getD []) :
    Event.send p ⟨"user_left", .userEvent client.userId r, now⟩ ∈ (removeClient s c now).2 := by
  simp only [removeClient, hc]
  apply foldl_roomStep_user_left c client.userId now _ _ p r hpne ?_ ?_ ?_ ?_
  · rw [removeUserIndex_clients]
    exact hp
  · rw [removeUserIndex_roomConnections]
    exact hcr
  · rw [removeUserIndex_roomConnections]
    exact hpr
  · cases hget : mapGet (removeUserIndex s c client.userId).roomConnections r with
    | none =>
      rw [removeUserIndex_roomConnections] at hget
      rw [hget] at hcr
      simp at hcr
    | some v => exact List.mem_map_of_mem Prod.fst (mapGet_mem hget)

/-! Heartbeat lemmas. -/

theorem mapGet_of_mem_nodup {κ α : Type} [DecidableEq κ] {m : List (κ × α)} {k : κ} {v : α}
    (hnodup : (m.map Prod.fst).Nodup) (hmem : (k, v) ∈ m) : mapGet m k = some v := by
  induction m with
  | nil => exact absurd hmem (List.not_mem_nil _)
  | cons e es ih =>
    rw [List.map_cons, List.nodup_cons] at hnodup
    rcases List.mem_cons.mp hmem with h | h
    · rw [mapGet, if_pos (congrArg Prod.fst h.symm)]
      rw [h.symm]
    · have hne : ¬ (e.1 = k) := fun hh =>
        hnodup.1 (hh ▸ List.mem_map_of_mem Prod.fst h)
      rw [mapGet, if_neg hne]
      exact ih hnodup.2 h

theorem heartbeatStep_events_prefix (now : Nat) (acc : WSState × List Event)
    (entry : String × ConnectedClient) :
    ∃ t, (heartbeatStep now acc entry).2 = acc.2 ++ t := by
  unfold heartbeatStep
  by_cases hcond : now - entry.2.lastPing > heartbeatTimeoutMs
  · simp only [hcond, if_true]
    exact ⟨_, by rw [List.append_assoc]⟩
  · simp only [hcond, if_false]
    exact ⟨[.ping entry.1], rfl⟩

theorem foldl_heartbeat_events_mem (now : Nat) (l : List (String × ConnectedClient))
    (acc : WSState × List Event) (e : Event) (he : e ∈ acc.2) :
    e ∈ ((l.foldl (heartbeatStep now) acc)).2 := by
  induction l generalizing acc with
  | nil => exact he
  | cons k ks ih =>
    rw [List.foldl_cons]
    apply ih
    rcases heartbeatStep_events_prefix now acc k with ⟨t, ht⟩
    rw [ht]
    exact List.mem_append_left t he

theorem hb_step_clients_some (now : Nat) (acc : WSState × List Event)
    (entry : String × ConnectedClient) (x : String) (v : ConnectedClient)
    (hx : x ≠ entry.1) (h : mapGet acc.1.clients x = some v) :
    mapGet (heartbeatStep now acc entry).1.clients x = some v := by
  unfold heartbeatStep
  by_cases hcond : now - entry.2.lastPing > heartbeatTimeoutMs
  · simp only [hcond, if_true]
    rw [removeClient_clients_ne _ _ _ _ hx]
    exact h
  · simpa [hcond] using h

theorem hb_step_clients_none (now : Nat) (acc : WSState × List Event)
    (entry : String × ConnectedClient) (x : String)
    (h : mapGet acc.1.clients x = none) :
    mapGet (heartbeatStep now acc entry).1.clients x = none := by
  unfold heartbeatStep
  by_cases hcond : now - entry.2.lastPing > heartbeatTimeoutMs
  · simp only [hcond, if_true]
    exact removeClient_clients_none _ _ _ _ h
  · simpa [hcond] using h

theorem hb_step_roomMem (now : Nat) (acc : WSState × List Event)
    (entry : String × ConnectedClient) (x : String) (r : JsStr) (hx : x ≠ entry.1)
    (h : x ∈ (mapGet acc.1.roomConnections r).getD []) :
    x ∈ (mapGet (heartbeatStep now acc entry).1.roomConnections r).getD [] := by
  unfold heartbeatStep
  by_cases hcond : now - entry.2.lastPing > heartbeatTimeoutMs
  · simp only [hcond, if_true]
    exact removeClient_roomMem _ _ _ _ _ hx h
  · simpa [hcond] using h

theorem foldl_hb_clients_none (now : Nat) (l : List (String × ConnectedClient))
    (acc : WSState × List Event) (x : String)
    (h : mapGet acc.1.clients x = none) :
    mapGet ((l.foldl (heartbeatStep now) acc)).1.clients x = none := by
  induction l generalizing acc with
  | nil => exact h
  | cons e es ih =>
    rw [List.foldl_cons]
    exact ih _ (hb_step_clients_none now acc e x h)

theorem foldl_hb_clients_some (now : Nat) (l : List (String × ConnectedClient))
    (acc : WSState × List Event) (x : String) (v : ConnectedClient)
    (hkeys : x ∉ l.map Prod.fst) (h : mapGet acc.1.clients x = some v) :
    mapGet ((l.foldl (heartbeatStep now) acc)).1.clients x = some v := by
  induction l generalizing acc with
  | nil => exact h
  | cons e es ih =>
    rw [List.map_cons] at hkeys
    rw [List.foldl_cons]
    exact ih _ (fun hh => hkeys (List.mem_cons_of_mem _ hh))
      (hb_step_clients_some now acc e x v
        (fun hh => hkeys (hh ▸ List.mem_cons_self _ _)) h)

theorem foldl_hb_evicts (now : Nat) (l : List (String × ConnectedClient))
    (acc : WSState × List Event) (c : String) (cl : ConnectedClient)
    (htime : now - cl.lastPing > heartbeatTimeoutMs)
    (hnodup : (l.map Prod.fst).Nodup) (hmem : (c, cl) ∈ l)
    (hcur : mapGet acc.1.clients c = some cl) :
    mapGet ((l.foldl (heartbeatStep now) acc)).1.clients c = none ∧
    Event.terminate c ∈ ((l.foldl (heartbeatStep now) acc)).2 := by
  induction l generalizing acc with
  | nil => exact absurd hmem (List.not_mem_nil _)
  | cons e es ih =>
    rw [List.map_cons, List.nodup_cons] at hnodup
    rw [List.foldl_cons]
    by_cases hec : e.1 = c
    · have he : e = (c, cl) := by
        rcases List.mem_cons.mp hmem with h | h
        · exact h.symm
        · exact absurd (hec ▸ List.mem_map_of_mem Prod.fst h) hnodup.1
      subst he
      have hstep : heartbeatStep now acc (c, cl)
          = ((removeClient acc.1 c now).1,
             acc.2 ++ [.terminate c] ++ (removeClient acc.1 c now).2) := by
        simp [heartbeatStep, htime]
      rw [hstep]
      constructor
      · exact foldl_hb_clients_none now es _ c (removeClient_clients_self acc.1 c now)
      · apply foldl_heartbeat_events_mem
        simp
    · have hmem2 : (c, cl) ∈ es := by
        rcases List.mem_cons.mp hmem with h | h
        · exact absurd (congrArg Prod.fst h.symm) hec
        · exact h
      exact ih _ hnodup.2 hmem2
        (hb_step_clients_some now acc e c cl (fun hh => hec hh.symm) hcur)

theorem foldl_hb_survives (now : Nat) (l : List (String × ConnectedClient))
    (acc : WSState × List Event) (p : String) (pcl : ConnectedClient)
    (htime : ¬ now - pcl.lastPing > heartbeatTimeoutMs)
    (hnodup : (l.map Prod.fst).Nodup) (hmem : (p, pcl) ∈ l)
    (hcur : mapGet acc.1.clients p = some pcl) :
    mapGet ((l.foldl (heartbeatStep now) acc)).1.clients p = some pcl ∧
    Event.ping p ∈ ((l.foldl (heartbeatStep now) acc)).2 := by
  induction l generalizing acc with
  | nil => exact absurd hmem (List.not_mem_nil _)
  | cons e es ih =>
    rw [List.map_cons, List.nodup_cons] at hnodup
    rw [List.foldl_cons]
    by_cases hep : e.1 = p
    · have he : e = (p, pcl) := by
        rcases List.mem_cons.mp hmem with h | h
        · exact h.symm
        · exact absurd (hep ▸ List.mem_map_of_mem Prod.fst h) hnodup.1
      subst he
      have hstep : heartbeatStep now acc (p, pcl) = (acc.1, acc.2 ++ [.ping p]) := by
        simp [heartbeatStep, htime]
      rw [hstep]
      constructor
      · exact foldl_hb_clients_some now es (acc.1, acc.2 ++ [Event.ping p]) p pcl
          (fun hh => hnodup.1 hh) hcur
      · apply foldl_heartbeat_events_mem
        simp
    · have hmem2 : (p, pcl) ∈ es := by
        rcases List.mem_cons.mp hmem with h | h
        · exact absurd (congrArg Prod.fst h.symm) hep
        · exact h
      exact ih _ hnodup.2 hmem2
        (hb_step_clients_some now acc e p pcl (fun hh => hep hh.symm) hcur)

theorem foldl_hb_user_left (now : Nat) (l : List (String × ConnectedClient))
    (acc : WSState × List Event) (c : String) (cl : ConnectedClient) (p : String) (r : JsStr)
    (hpne : p ≠ c)
    (htimec : now - cl.lastPing > heartbeatTimeoutMs)
    (hnodup : (l.map Prod.fst).Nodup) (hmemc : (c, cl) ∈ l)
    (hpsafe : ∀ v, (p, v) ∈ l → ¬ now - v.lastPing > heartbeatTimeoutMs)
    (hcurc : mapGet acc.1.clients c = some cl)
    (hcurp : (mapGet acc.1.clients p).isSome = true)
    (hcr : c ∈ (mapGet acc.1.roomConnections r).getD [])
    (hpr : p ∈ (mapGet acc.1.roomConnections r).getD []) :
    Event.send p ⟨"user_left", .userEvent cl.userId r, now⟩
      ∈ ((l.foldl (heartbeatStep now) acc)).2 := by
  induction l generalizing acc with
  | nil => exact absurd hmemc (List.not_mem_nil _)
  | cons e es ih =>
    rw [List.map_cons, List.nodup_cons] at hnodup
    rw [List.foldl_cons]
    by_cases hec : e.1 = c
    · have he : e = (c, cl) := by
        rcases List.mem_cons.mp hmemc with h | h
        · exact h.symm
        · exact absurd (hec ▸ List.mem_map_of_mem Prod.fst h) hnodup.1
      subst he
      have hstep : heartbeatStep now acc (c, cl)
          = ((removeClient acc.1 c now).1,
             acc.2 ++ [.terminate c] ++ (removeClient acc.1 c now).2) := by
        simp [heartbeatStep, htimec]
      rw [hstep]
      apply foldl_heartbeat_events_mem
      exact List.mem_append_right _
        (removeClient_emits_user_left acc.1 c cl now p r hcurc hpne hcurp hcr hpr)
    · have hmemc2 : (c, cl) ∈ es := by
        rcases List.mem_cons.mp hmemc with h | h
        · exact absurd (congrArg Prod.fst h.symm) hec
        · exact h
      have hpsafe2 : ∀ v, (p, v) ∈ es → ¬ now - v.lastPing > heartbeatTimeoutMs :=
        fun v hv => hpsafe v (List.mem_cons_of_mem _ hv)
      by_cases hep : e.1 = p
      · obtain ⟨a, v⟩ := e
        simp only at hep
        subst hep
        have hsafe := hpsafe v (List.mem_cons_self _ _)
        have hstep : heartbeatStep now acc (a, v) = (acc.1, acc.2 ++ [.ping a]) := by
          simp [heartbeatStep, hsafe]
        rw [hstep]
        exact ih (acc.1, acc.2 ++ [.ping a]) hnodup.2 hmemc2 hpsafe2 hcurc hcurp hcr hpr
      · have hcurp2 : (mapGet (heartbeatStep now acc e).1.clients p).isSome = true := by
          obtain ⟨v0, hv0⟩ := Option.isSome_iff_exists.mp hcurp
          rw [hb_step_clients_some now acc e p v0 (fun hh => hep hh.symm) hv0]
          rfl
        exact ih (heartbeatStep now acc e) hnodup.2 hmemc2 hpsafe2
          (hb_step_clients_some now acc e c cl (fun hh => hec hh.symm) hcurc) hcurp2
          (hb_step_roomMem now acc e c r (fun hh => hec hh.symm) hcr)
          (hb_step_roomMem now acc e p r (fun hh => hep hh.symm) hpr)

/-! Claim C8. -/

/-- C8 (confirmed): on a heartbeat tick at time now, every live connection
whose silence exceeds the timeout window (now - lastPing > 30000 ms, the tick
firing every 10000 ms) is terminated and unregistered, every other live
connection is sent a liveness probe, and for every room shared with a
surviving peer the peer receives a user_left event carrying the evicted
connection's last-known identity. -/
theorem C8_heartbeat (s : WSState) (now : Nat) (c p : String)
    (cl pcl : ConnectedClient) (r : JsStr)
    (hnodup : (s.clients.map Prod.fst).Nodup) :
    ((c, cl) ∈ s.clients → now - cl.lastPing > heartbeatTimeoutMs →
      mapGet (heartbeatTick s now).1.clients c = none ∧
      Event.terminate c ∈ (heartbeatTick s now).2) ∧
    ((c, cl) ∈ s.clients → ¬ now - cl.lastPing > heartbeatTimeoutMs →
      mapGet (heartbeatTick s now).1.clients c = some cl ∧
      Event.ping c ∈ (heartbeatTick s now).2) ∧
    ((c, cl) ∈ s.clients → (p, pcl) ∈ s.clients →
      now - cl.lastPing > heartbeatTimeoutMs → ¬ now - pcl.lastPing > heartbeatTimeoutMs →
      p ≠ c → c ∈ (mapGet s.roomConnections r).getD [] →
      p ∈ (mapGet s.roomConnections r).getD [] →
      Event.send p ⟨"user_left", .userEvent cl.userId r, now⟩ ∈ (heartbeatTick s now).2) := by
  refine ⟨fun hmem ht => ?_, fun hmem ht => ?_, fun hmemc hmemp htc htp hpne hcr hpr => ?_⟩
  · exact foldl_hb_evicts now s.clients (s, []) c cl ht hnodup hmem
      (mapGet_of_mem_nodup hnodup hmem)
  · exact foldl_hb_survives now s.clients (s, []) c cl ht hnodup hmem
      (mapGet_of_mem_nodup hnodup hmem)
  · apply foldl_hb_user_left now s.clients (s, []) c cl p r hpne htc hnodup hmemc ?_
      (mapGet_of_mem_nodup hnodup hmemc) ?_ hcr hpr
    · intro v hv
      have h1 := mapGet_of_mem_nodup hnodup hv
      have h2 := mapGet_of_mem_nodup hnodup hmemp
      rw [h1] at h2
      rw [Option.some_inj.mp h2]
      exact htp
    · rw [mapGet_of_mem_nodup hnodup hmemp]
      rfl

/-- Demo state for the heartbeat: c2 answered a probe at time 20000 while c1
stayed silent since registration at time 0. -/
def hbDemo : WSState := onPong demoS4 "c2" 20000

/-- The record of c1 in hbDemo. -/
def hbC1 : ConnectedClient :=
  { id := "c1", userId := some "u1", role := some "staff",
    roomNumber := some "101", lastPing := 0 }

/-- The record of c2 in hbDemo. -/
def hbC2 : ConnectedClient :=
  { id := "c2", userId := some "u2", role := some "staff",
    roomNumber := some "101", lastPing := 20000 }

/-- C8 witness: at tick time 40001, c1 (silent for more than 30000 ms) is
terminated and removed, c2 is pinged and kept, and c2 receives the user_left
event for room 101 carrying c1's identity. -/
theorem C8_heartbeat_witness :
    (("c1", hbC1) ∈ hbDemo.clients → (40001 : Nat) - hbC1.lastPing > heartbeatTimeoutMs →
      mapGet (heartbeatTick hbDemo 40001).1.clients "c1" = none ∧
      Event.terminate "c1" ∈ (heartbeatTick hbDemo 40001).2) ∧
    (("c1", hbC1) ∈ hbDemo.clients → ¬ (40001 : Nat) - hbC1.lastPing > heartbeatTimeoutMs →
      mapGet (heartbeatTick hbDemo 40001).1.clients "c1" = some hbC1 ∧
      Event.ping "c1" ∈ (heartbeatTick hbDemo 40001).2) ∧
    (("c1", hbC1) ∈ hbDemo.clients → ("c2", hbC2) ∈ hbDemo.clients →
      (40001 : Nat) - hbC1.lastPing > heartbeatTimeoutMs →
      ¬ (40001 : Nat) - hbC2.lastPing > heartbeatTimeoutMs →
      "c2" ≠ "c1" → "c1" ∈ (mapGet hbDemo.roomConnections (some "101")).getD [] →
      "c2" ∈ (mapGet hbDemo.roomConnections (some "101")).getD [] →
      Event.send "c2" ⟨"user_left", .userEvent (some "u1") (some "101"), 40001⟩
        ∈ (heartbeatTick hbDemo 40001).2) := by
  exact C8_heartbeat hbDemo 40001 "c1" "c2" hbC1 hbC2 (some "101") (by decide)

end ProjectX
